import Mathlib

/-!
# Verification of the OptimalMastPlanner analytical core

Shallow embedding of the analytical core of `OptimalMastPlanner.py`:
the trix-file reader, the per-row adjusted-uncertainty computation and
entity-ID assignment of `aggregate_process_trix_file`, the pair selector
`process_best_two_met_mast`, and the single-mast selector
`process_best_single_met_mast`.

Modelling conventions:
* pandas float64 cells are modelled as exact rationals (`ℚ`); a cell
  holding NaN (a value that failed `pd.to_numeric(errors='coerce')`, or a
  matrix cell never assigned) is modelled as `none : Option ℚ`, and the
  NaN behaviour of the operations the code performs (`NaN + x = NaN`,
  `NaN < x = False`, and — because the pair matrix is an object-dtype
  frame — numpy's object-loop minimum `in1 if in1 <= in2 else in2`) is
  modelled explicitly on `Option ℚ`;
* `np.sqrt` is modelled as `Real.sqrt` on the rational's cast;
* Python exceptions that the code can actually raise are modelled as an
  error type; the code defines no error classes of its own, so the
  constructors name the concrete runtime exceptions, plus the two error
  names the documentation speaks of, which no code path produces.
-/

namespace OMP

/-- One parsed measurement row of the trix file, after
`aggregate_process_trix_file` has read it into `self.df_data`: the turbine
and reference-point (mast) coordinate/RIX columns, and the four columns
coerced with `pd.to_numeric(errors='coerce')` (a coercion failure or a
missing value is NaN, modelled `none`). -/
structure MRow where
  wtgX : ℚ
  wtgY : ℚ
  wtgZ : ℚ
  wtgRIX : ℚ
  refX : ℚ
  refY : ℚ
  refZ : ℚ
  refRIX : ℚ
  horiz_uc_horiz : Option ℚ
  horiz_distance : Option ℚ
  horiz_uc_vert : Option ℚ
  vert_uc : Option ℚ
deriving DecidableEq

/-- `fillna(100)`, applied in the source to the two horizontal-uncertainty
columns before any arithmetic. -/
def fillna100 (o : Option ℚ) : ℚ := o.getD 100

/-- Column `adj_horiz_uc_horiz_dist`:
`df['Horiz. Uc increase due to horiz. distance [%]'].fillna(100) +
df['Horizontal Distance [m]'] / 1000`. The distance column is not filled,
so its NaN propagates. -/
def adj_horiz_uc_horiz_dist (r : MRow) : Option ℚ :=
  r.horiz_distance.map (fun d => fillna100 r.horiz_uc_horiz + d / 1000)

/-- Column `adj_sum_horiz_uc`: the previous column plus
`df['Horiz. Uc increase due to vert. distance [%]'].fillna(100)`. -/
def adj_sum_horiz_uc (r : MRow) : Option ℚ :=
  (adj_horiz_uc_horiz_dist r).map (fun s => s + fillna100 r.horiz_uc_vert)

/-- The radicand of column `adj_RSS_uncertainty`:
`adj_sum_horiz_uc ** 2 + df['Vertical uncertainty increase [%]'] ** 2`.
The vertical column is not filled, so its NaN propagates. -/
def adj_RSS_sq (r : MRow) : Option ℚ :=
  (adj_sum_horiz_uc r).bind (fun s => r.vert_uc.map (fun v => s ^ 2 + v ^ 2))

/-- Column `adj_RSS_uncertainty`: `np.sqrt` of the radicand. -/
noncomputable def adj_RSS_uncertainty (r : MRow) : Option ℝ :=
  (adj_RSS_sq r).map (fun q => Real.sqrt (q : ℝ))

/-- The row of the spec's worked example: `horiz_uc_horiz = NaN`,
`horiz_distance = 500`, `horiz_uc_vert = 2.0`, `vert_uc = 3.0`
(coordinates irrelevant). -/
def exampleRow : MRow :=
  ⟨0, 0, 0, 0, 0, 0, 0, 0, none, some 500, some 2, some 3⟩

/-- A row on which the vertical-uncertainty column failed numeric
coercion (NaN): everything else is well-formed. -/
def nanVertRow : MRow :=
  ⟨0, 0, 0, 0, 0, 0, 0, 0, some 1, some 500, some 2, none⟩

/-- C1: for every parsed row (whose distance and vertical columns coerced
to numbers), the aggregator computes
`adj_horiz_uc_horiz_dist = horiz_uc_horiz (100 when missing) + horiz_distance/1000`,
`adj_sum_horiz_uc = adj_horiz_uc_horiz_dist + horiz_uc_vert (100 when missing)` and
`adj_RSS_uncertainty = sqrt(adj_sum_horiz_uc^2 + vert_uc^2)`; in
particular the row `horiz_uc_horiz=NaN, horiz_distance=500,
horiz_uc_vert=2.0, vert_uc=3.0` yields `100.5`, `102.5` and
`sqrt(102.5^2 + 3^2)`. (Exact-arithmetic embedding of the float formulas.) -/
theorem C1_adjusted_uncertainty_formula :
    (∀ (r : MRow) (d v : ℚ), r.horiz_distance = some d → r.vert_uc = some v →
      adj_horiz_uc_horiz_dist r = some (fillna100 r.horiz_uc_horiz + d / 1000) ∧
      adj_sum_horiz_uc r =
        some (fillna100 r.horiz_uc_horiz + d / 1000 + fillna100 r.horiz_uc_vert) ∧
      adj_RSS_uncertainty r =
        some (Real.sqrt
          (((fillna100 r.horiz_uc_horiz + d / 1000 + fillna100 r.horiz_uc_vert : ℚ) : ℝ) ^ 2
            + (v : ℝ) ^ 2))) ∧
    adj_horiz_uc_horiz_dist exampleRow = some 100.5 ∧
    adj_sum_horiz_uc exampleRow = some 102.5 ∧
    adj_RSS_uncertainty exampleRow = some (Real.sqrt ((102.5 : ℝ) ^ 2 + 3 ^ 2)) := by
  constructor
  · intro r d v hd hv
    refine ⟨?_, ?_, ?_⟩
    · simp [adj_horiz_uc_horiz_dist, hd]
    · simp [adj_sum_horiz_uc, adj_horiz_uc_horiz_dist, hd]
    · have h1 : adj_RSS_sq r =
          some ((fillna100 r.horiz_uc_horiz + d / 1000 + fillna100 r.horiz_uc_vert) ^ 2 + v ^ 2) := by
        simp [adj_RSS_sq, adj_sum_horiz_uc, adj_horiz_uc_horiz_dist, hd, hv]
      have h2 : (((fillna100 r.horiz_uc_horiz + d / 1000 + fillna100 r.horiz_uc_vert) ^ 2 + v ^ 2 : ℚ) : ℝ)
          = ((fillna100 r.horiz_uc_horiz + d / 1000 + fillna100 r.horiz_uc_vert : ℚ) : ℝ) ^ 2
            + (v : ℝ) ^ 2 := by
        push_cast
        ring
      simp [adj_RSS_uncertainty, h1, h2]
  · refine ⟨?_, ?_, ?_⟩
    · norm_num [adj_horiz_uc_horiz_dist, exampleRow, fillna100]
    · norm_num [adj_sum_horiz_uc, adj_horiz_uc_horiz_dist, exampleRow, fillna100]
    · simp only [adj_RSS_uncertainty, adj_RSS_sq, adj_sum_horiz_uc,
        adj_horiz_uc_horiz_dist, exampleRow, fillna100, Option.getD_none,
        Option.map_some, Option.bind_some, Option.some_inj]
      norm_num

/-- C7 counterexample: on a row whose vertical-uncertainty column failed
numeric coercion, `adj_RSS_uncertainty` is NaN (modelled `none`) — it is
not a value `≥ 0`; only the two horizontal-uncertainty columns receive
the worst-case substitution 100. -/
theorem C7_counterexample_nan_vert : adj_RSS_uncertainty nanVertRow = none := rfl

/-- C7 (amended): for every row whose `horiz_distance` and `vert_uc`
columns coerced to numbers, `adj_RSS_uncertainty` is a defined value
`≥ 0`, whatever the (possibly missing, 100-substituted)
horizontal-uncertainty inputs; rows where `horiz_distance` or `vert_uc`
is missing instead yield NaN. -/
theorem C7_adj_RSS_nonneg (r : MRow) (d v : ℚ)
    (hd : r.horiz_distance = some d) (hv : r.vert_uc = some v) :
    ∃ x : ℝ, adj_RSS_uncertainty r = some x ∧ 0 ≤ x := by
  refine ⟨Real.sqrt
      (((fillna100 r.horiz_uc_horiz + d / 1000 + fillna100 r.horiz_uc_vert) ^ 2 + v ^ 2 : ℚ) : ℝ),
    ?_, Real.sqrt_nonneg _⟩
  simp [adj_RSS_uncertainty, adj_RSS_sq, adj_sum_horiz_uc,
    adj_horiz_uc_horiz_dist, hd, hv]

/-- C7 witness: the worked-example row has a defined, nonnegative
adjusted RSS uncertainty. -/
theorem C7_witness : ∃ x : ℝ, adj_RSS_uncertainty exampleRow = some x ∧ 0 ≤ x :=
  C7_adj_RSS_nonneg exampleRow 500 3 rfl rfl

/-! ## Entity deduplication and ID assignment

`aggregate_process_trix_file` deduplicates the turbine tuple
`(WTG X, WTG Y, WTG Z, WTG RIX)` and the mast tuple
`(Reference Point X, Y, Z, Reference RIX)` with
`drop_duplicates().reset_index(drop=True)` (keep the first occurrence, in
row order), formats IDs `'WTG_{:02d}'.format(i+1)` /
`'Mast_{:02d}'.format(i+1)` by position, and joins them back onto every
row with `pd.merge(..., on=key_cols, how='left')`. -/

/-- Worker for `dropDuplicates`: keep each element not seen before,
accumulating the seen ones. -/
def dedupAux {α : Type} [DecidableEq α] (seen : List α) : List α → List α
  | [] => []
  | a :: l => if a ∈ seen then dedupAux seen l else a :: dedupAux (a :: seen) l

/-- pandas `drop_duplicates()`: first occurrences, in order. -/
def dropDuplicates {α : Type} [DecidableEq α] (l : List α) : List α := dedupAux [] l

/-- Index of the first occurrence of `k` (length of the list if absent). -/
def firstIdx {α : Type} [DecidableEq α] (k : α) : List α → ℕ
  | [] => 0
  | a :: l => if a = k then 0 else firstIdx k l + 1

theorem mem_dedupAux {α : Type} [DecidableEq α] (b : α) :
    ∀ (l seen : List α), b ∈ dedupAux seen l ↔ b ∈ l ∧ b ∉ seen
  | [], seen => by simp [dedupAux]
  | a :: l, seen => by
    by_cases ha : a ∈ seen
    · rw [dedupAux, if_pos ha, mem_dedupAux b l seen]
      simp only [List.mem_cons]
      constructor
      · rintro ⟨h1, h2⟩
        exact ⟨Or.inr h1, h2⟩
      · rintro ⟨h1 | h1, h2⟩
        · exact absurd (h1 ▸ ha) h2
        · exact ⟨h1, h2⟩
    · rw [dedupAux, if_neg ha]
      simp only [List.mem_cons, mem_dedupAux b l (a :: seen)]
      constructor
      · rintro (h1 | ⟨h1, h2⟩)
        · exact ⟨Or.inl h1, h1 ▸ ha⟩
        · simp only [List.mem_cons, not_or] at h2
          exact ⟨Or.inr h1, h2.2⟩
      · rintro ⟨h1 | h1, h2⟩
        · exact Or.inl h1
        · by_cases hb : b = a
          · exact Or.inl hb
          · exact Or.inr ⟨h1, by simp [hb, h2]⟩

theorem nodup_dedupAux {α : Type} [DecidableEq α] :
    ∀ (l seen : List α), (dedupAux seen l).Nodup
  | [], _ => by simp [dedupAux]
  | a :: l, seen => by
    by_cases ha : a ∈ seen
    · rw [dedupAux, if_pos ha]
      exact nodup_dedupAux l seen
    · rw [dedupAux, if_neg ha]
      refine List.Nodup.cons (fun hmem => ?_) (nodup_dedupAux l (a :: seen))
      exact ((mem_dedupAux a l (a :: seen)).1 hmem).2 (List.mem_cons_self a seen)

theorem sublist_dedupAux {α : Type} [DecidableEq α] :
    ∀ (l seen : List α), (dedupAux seen l).Sublist l
  | [], _ => by simp [dedupAux]
  | a :: l, seen => by
    by_cases ha : a ∈ seen
    · rw [dedupAux, if_pos ha]
      exact (sublist_dedupAux l seen).cons a
    · rw [dedupAux, if_neg ha]
      exact (sublist_dedupAux l (a :: seen)).cons₂ a

theorem firstIdx_cons_ne {α : Type} [DecidableEq α] {a k : α} (l : List α) (h : a ≠ k) :
    firstIdx k (a :: l) = firstIdx k l + 1 := by
  simp [firstIdx, h]

theorem pairwise_firstIdx_dedupAux {α : Type} [DecidableEq α] :
    ∀ (l seen : List α),
      List.Pairwise (fun x y => firstIdx x l < firstIdx y l) (dedupAux seen l)
  | [], _ => by simp [dedupAux]
  | a :: l, seen => by
    by_cases ha : a ∈ seen
    · rw [dedupAux, if_pos ha]
      refine List.Pairwise.imp_of_mem ?_ (pairwise_firstIdx_dedupAux l seen)
      intro x y hx hy hlt
      have hxa : a ≠ x := fun h => ((mem_dedupAux x l seen).1 hx).2 (h ▸ ha)
      have hya : a ≠ y := fun h => ((mem_dedupAux y l seen).1 hy).2 (h ▸ ha)
      rw [firstIdx_cons_ne l hxa, firstIdx_cons_ne l hya]
      omega
    · rw [dedupAux, if_neg ha]
      refine List.Pairwise.cons ?_ ?_
      · intro y hy
        have hya : a ≠ y := fun h =>
          ((mem_dedupAux y l (a :: seen)).1 hy).2 (h ▸ List.mem_cons_self a seen)
        have h1 : firstIdx a (a :: l) = 0 := by simp [firstIdx]
        rw [h1, firstIdx_cons_ne l hya]
        omega
      · refine List.Pairwise.imp_of_mem ?_ (pairwise_firstIdx_dedupAux l (a :: seen))
        intro x y hx hy hlt
        have hxa : a ≠ x := fun h =>
          ((mem_dedupAux x l (a :: seen)).1 hx).2 (h ▸ List.mem_cons_self a seen)
        have hya : a ≠ y := fun h =>
          ((mem_dedupAux y l (a :: seen)).1 hy).2 (h ▸ List.mem_cons_self a seen)
        rw [firstIdx_cons_ne l hxa, firstIdx_cons_ne l hya]
        omega

/-- `'{:02d}'.format(n)`: decimal rendering, left-padded with `0` to
width two. -/
def fmt2 (n : ℕ) : String := if n < 10 then "0" ++ Nat.repr n else Nat.repr n

/-- The ID column built by position over the deduplicated keys:
`[pre + '{:02d}'.format(i+1) for i in range(len(keys))]`, starting at
offset `i`. -/
def idTable {K : Type} (pre : String) : ℕ → List K → List (K × String)
  | _, [] => []
  | i, k :: ks => (k, pre ++ fmt2 (i + 1)) :: idTable pre (i + 1) ks

/-- `pd.merge(..., on=key_cols, how='left')` against a unique-key table:
the matched row's ID, or missing (modelled `""`) when no key matches. -/
def lookupId {K : Type} [DecidableEq K] : List (K × String) → K → String
  | [], _ => ""
  | p :: tbl, k => if p.1 = k then p.2 else lookupId tbl k

theorem lookupId_idTable {K : Type} [DecidableEq K] (pre : String) :
    ∀ (ks : List K) (i : ℕ) (k : K), k ∈ ks →
      lookupId (idTable pre i ks) k = pre ++ fmt2 (i + firstIdx k ks + 1)
  | [], _, _ => by simp
  | a :: ks, i, k => by
    intro hk
    by_cases hak : a = k
    · subst hak
      simp [lookupId, idTable, firstIdx]
    · have hk' : k ∈ ks := by
        rcases List.mem_cons.1 hk with h | h
        · exact absurd h.symm hak
        · exact h
      have ih := lookupId_idTable pre ks (i + 1) k hk'
      have harg : i + 1 + firstIdx k ks + 1 = i + (firstIdx k ks + 1) + 1 := by omega
      rw [idTable, lookupId, if_neg hak, ih, harg, firstIdx_cons_ne ks hak]

/-- The turbine identity tuple `('WTG X [m]', 'WTG Y [m]', 'WTG Z [m]',
'WTG RIX [%]')` of a row. -/
def turbineKey (r : MRow) : ℚ × ℚ × ℚ × ℚ := (r.wtgX, r.wtgY, r.wtgZ, r.wtgRIX)

/-- The mast identity tuple `('Reference Point X [m]', 'Reference Point Y
[m]', 'Reference Point Z [m]', 'Reference RIX [%]')` of a row. -/
def mastKey (r : MRow) : ℚ × ℚ × ℚ × ℚ := (r.refX, r.refY, r.refZ, r.refRIX)

/-- `unique_turbines = df[turbine_cols].drop_duplicates().reset_index(drop=True)`. -/
def uniqueTurbineKeys (rows : List MRow) : List (ℚ × ℚ × ℚ × ℚ) :=
  dropDuplicates (rows.map turbineKey)

/-- `unique_masts = df[ref_cols].drop_duplicates().reset_index(drop=True)`. -/
def uniqueMastKeys (rows : List MRow) : List (ℚ × ℚ × ℚ × ℚ) :=
  dropDuplicates (rows.map mastKey)

/-- The `turbine_id` column of `unique_turbines`:
`['WTG_{:02d}'.format(i+1) for i in range(len(unique_turbines))]`. -/
def turbineIdTable (rows : List MRow) : List ((ℚ × ℚ × ℚ × ℚ) × String) :=
  idTable "WTG_" 0 (uniqueTurbineKeys rows)

/-- The `mast_id` column of `unique_masts`:
`['Mast_{:02d}'.format(i+1) for i in range(len(unique_masts))]`. -/
def mastIdTable (rows : List MRow) : List ((ℚ × ℚ × ℚ × ℚ) × String) :=
  idTable "Mast_" 0 (uniqueMastKeys rows)

/-- The `turbine_id` carried by an enriched row after
`pd.merge(df, unique_turbines, on=turbine_cols, how='left')`. -/
def turbine_id (rows : List MRow) (r : MRow) : String :=
  lookupId (turbineIdTable rows) (turbineKey r)

/-- The `mast_id` carried by an enriched row after
`pd.merge(df, unique_masts, on=ref_cols, how='left')`. -/
def mast_id (rows : List MRow) (r : MRow) : String :=
  lookupId (mastIdTable rows) (mastKey r)

/-- C6: the aggregator deduplicates turbine tuples and mast tuples by
exact structural equality, preserving first-occurrence order (the unique
lists are duplicate-free sublists of the row keys, listed in strictly
increasing order of first occurrence), and every enriched row carries the
ID `WTG_nn` / `Mast_nn` (two-digit, zero-padded, 1-based) of the
first-occurrence position of its own tuple. -/
theorem C6_dedup_and_id_assignment (rows : List MRow) :
    (uniqueTurbineKeys rows).Nodup ∧
    (∀ k, k ∈ uniqueTurbineKeys rows ↔ k ∈ rows.map turbineKey) ∧
    (uniqueTurbineKeys rows).Sublist (rows.map turbineKey) ∧
    List.Pairwise
      (fun x y => firstIdx x (rows.map turbineKey) < firstIdx y (rows.map turbineKey))
      (uniqueTurbineKeys rows) ∧
    (∀ r ∈ rows,
      turbine_id rows r = "WTG_" ++ fmt2 (firstIdx (turbineKey r) (uniqueTurbineKeys rows) + 1)) ∧
    (uniqueMastKeys rows).Nodup ∧
    (∀ k, k ∈ uniqueMastKeys rows ↔ k ∈ rows.map mastKey) ∧
    (uniqueMastKeys rows).Sublist (rows.map mastKey) ∧
    List.Pairwise
      (fun x y => firstIdx x (rows.map mastKey) < firstIdx y (rows.map mastKey))
      (uniqueMastKeys rows) ∧
    (∀ r ∈ rows,
      mast_id rows r = "Mast_" ++ fmt2 (firstIdx (mastKey r) (uniqueMastKeys rows) + 1)) := by
  refine ⟨nodup_dedupAux _ _, ?_, sublist_dedupAux _ _, pairwise_firstIdx_dedupAux _ _, ?_,
    nodup_dedupAux _ _, ?_, sublist_dedupAux _ _, pairwise_firstIdx_dedupAux _ _, ?_⟩
  · intro k
    rw [uniqueTurbineKeys, dropDuplicates, mem_dedupAux k]
    simp
  · intro r hr
    have hmem : turbineKey r ∈ uniqueTurbineKeys rows := by
      rw [uniqueTurbineKeys, dropDuplicates, mem_dedupAux]
      exact ⟨List.mem_map_of_mem turbineKey hr, List.not_mem_nil _⟩
    simpa using lookupId_idTable "WTG_" (uniqueTurbineKeys rows) 0 (turbineKey r) hmem
  · intro k
    rw [uniqueMastKeys, dropDuplicates, mem_dedupAux k]
    simp
  · intro r hr
    have hmem : mastKey r ∈ uniqueMastKeys rows := by
      rw [uniqueMastKeys, dropDuplicates, mem_dedupAux]
      exact ⟨List.mem_map_of_mem mastKey hr, List.not_mem_nil _⟩
    simpa using lookupId_idTable "Mast_" (uniqueMastKeys rows) 0 (mastKey r) hmem

/-! ## Pair-mode selector: `process_best_two_met_mast`

The selector consumes `self.df_data` (the aggregated dataframe). It
deduplicates turbines on the coordinate triple `('WTG X [m]', 'WTG Y [m]',
'WTG Z [m]')` and masts on `('Reference Point X [m]', 'Reference Point Y
[m]', 'Reference Point Z [m]')` — without the RIX columns — builds a
turbine × mast matrix initialised to NaN, writes each row's
`adj_RSS_uncertainty` into its cell (later rows overwrite earlier ones),
and scans `itertools.combinations(range(len(masts)), 2)` with
`np.minimum` / `np.sum` / strict `<` against a running best. -/

/-- The Python exceptions the analytical core can raise at runtime
(`typeError`: subscripting `best_pair = None`; `keyError`: a missing
dataframe column; `emptyDataError`: `pd.read_csv` on empty text;
`valueError`: `idxmin` on an empty column), plus the two error names of
the documentation's taxonomy, which no code path produces — the code
defines no `SelectionError` or `ParseError` class. -/
inductive PyExc where
  | typeError
  | keyError
  | emptyDataError
  | valueError
  | selectionError
  | parseError
deriving DecidableEq

/-- One row of the aggregated dataframe as the pair selector consumes it:
turbine coordinates, mast coordinates and RIX, and the row's
`adj_RSS_uncertainty` cell (`none` = NaN). -/
structure PRow where
  tX : ℚ
  tY : ℚ
  tZ : ℚ
  mX : ℚ
  mY : ℚ
  mZ : ℚ
  mRIX : ℚ
  adjRSS : Option ℚ
deriving DecidableEq

/-- The turbine coordinate triple the matrix rows are keyed by. -/
def tCoords (r : PRow) : ℚ × ℚ × ℚ := (r.tX, r.tY, r.tZ)

/-- The mast coordinate triple the matrix columns are keyed by. -/
def mCoords (r : PRow) : ℚ × ℚ × ℚ := (r.mX, r.mY, r.mZ)

/-- `turbines = df[['WTG X [m]','WTG Y [m]','WTG Z [m]']].drop_duplicates()`. -/
def pairTurbines (rows : List PRow) : List (ℚ × ℚ × ℚ) :=
  dropDuplicates (rows.map tCoords)

/-- `masts = df[['Reference Point X [m]','Reference Point Y [m]','Reference Point Z [m]']].drop_duplicates()`. -/
def pairMasts (rows : List PRow) : List (ℚ × ℚ × ℚ) :=
  dropDuplicates (rows.map mCoords)

/-- The mast entity tuples of the data model (coordinates plus RIX)
present in the selector's input; only their coordinate part keys the
matrix columns. -/
def pairMastFullKeys (rows : List PRow) : List (ℚ × ℚ × ℚ × ℚ) :=
  dropDuplicates (rows.map (fun r => (r.mX, r.mY, r.mZ, r.mRIX)))

/-- One matrix cell after the `rss_matrix.at[turbine, mast] = ...` loop:
the `adj_RSS_uncertainty` of the last row with these coordinates, or NaN
(`none`) when no row has them (the matrix is initialised to NaN). -/
def cell (rows : List PRow) (t m : ℚ × ℚ × ℚ) : Option ℚ :=
  ((rows.filter (fun r => decide (tCoords r = t ∧ mCoords r = m))).getLast?).bind PRow.adjRSS

/-- `np.minimum` on two cells of the matrix. `pd.DataFrame(index=…,
columns=…)` without data creates an object-dtype frame, and `.at`
assignment and `.to_numpy()` keep it object, so `np.minimum` runs
numpy's object loop `in1 if in1 <= in2 else in2` through Python rich
comparison — and every comparison with NaN is false. Hence a NaN first
operand yields the second operand (whatever it is), while a real first
operand against a NaN second operand yields NaN. -/
def nanMin : Option ℚ → Option ℚ → Option ℚ
  | some a, some b => some (min a b)
  | none, v => v
  | some _, none => none

/-- Float addition with NaN propagation. -/
def nanAdd : Option ℚ → Option ℚ → Option ℚ
  | some a, some b => some (a + b)
  | _, _ => none

/-- `np.sum` over float cells: NaN as soon as one summand is NaN. -/
def nanSum : List (Option ℚ) → Option ℚ
  | [] => some 0
  | o :: l => nanAdd o (nanSum l)

/-- The mast coordinate triple at column index `i`. -/
def mastAt (rows : List PRow) (i : ℕ) : ℚ × ℚ × ℚ :=
  (pairMasts rows).getD i (0, 0, 0)

/-- `total_rss` of the pair of columns `(i, j)`:
`np.sum(np.minimum(rss_values[:, i], rss_values[:, j]))`. -/
def pairTotal (rows : List PRow) (i j : ℕ) : Option ℚ :=
  nanSum ((pairTurbines rows).map
    (fun t => nanMin (cell rows t (mastAt rows i)) (cell rows t (mastAt rows j))))

/-- `itertools.combinations(range(n), 2)` in iteration order
`(0,1),(0,2),…,(1,2),…`. -/
def combinations2 (n : ℕ) : List (ℕ × ℕ) :=
  (List.range n).flatMap
    (fun i => ((List.range n).filter (fun j => decide (i < j))).map (fun j => (i, j)))

/-- One iteration of the best-pair loop: skip a NaN total (`NaN < best`
is false), adopt a real total when no best exists yet (`best_total`
starts at `inf`) or when strictly below the running best. -/
def bestStep (f : ℕ × ℕ → Option ℚ) (acc : Option ((ℕ × ℕ) × ℚ)) (p : ℕ × ℕ) :
    Option ((ℕ × ℕ) × ℚ) :=
  match f p with
  | none => acc
  | some t =>
    match acc with
    | none => some (p, t)
    | some qb => if t < qb.2 then some (p, t) else some qb

/-- The best-pair loop over the candidate list. -/
def bestLoop (f : ℕ × ℕ → Option ℚ) (ps : List (ℕ × ℕ)) : Option ((ℕ × ℕ) × ℚ) :=
  ps.foldl (bestStep f) none

/-- Head recursion equivalent to `bestLoop` (an earlier candidate beats a
later equal one), used to reason about the fold. -/
def firstMin (f : ℕ × ℕ → Option ℚ) : List (ℕ × ℕ) → Option ((ℕ × ℕ) × ℚ)
  | [] => none
  | p :: ps =>
    match f p with
    | none => firstMin f ps
    | some t =>
      match firstMin f ps with
      | none => some (p, t)
      | some qb => if t ≤ qb.2 then some (p, t) else some qb

/-- Keep the better of an already-accumulated best (which wins ties, being
earlier) and the best of the remaining candidates. -/
def mergeBest : Option ((ℕ × ℕ) × ℚ) → Option ((ℕ × ℕ) × ℚ) → Option ((ℕ × ℕ) × ℚ)
  | none, r => r
  | some ab, none => some ab
  | some ab, some qb => if qb.2 < ab.2 then some qb else some ab

theorem foldl_bestStep (f : ℕ × ℕ → Option ℚ) :
    ∀ (ps : List (ℕ × ℕ)) (acc : Option ((ℕ × ℕ) × ℚ)),
      ps.foldl (bestStep f) acc = mergeBest acc (firstMin f ps)
  | [], acc => by cases acc <;> rfl
  | p :: ps, acc => by
    rw [List.foldl_cons, foldl_bestStep f ps, firstMin]
    rcases hfp : f p with _ | t
    · simp only [bestStep, hfp]
    · rcases hrest : firstMin f ps with _ | qb
      · rcases acc with _ | ab
        · simp only [bestStep, hfp, hrest, mergeBest]
        · simp only [bestStep, hfp, hrest, mergeBest]
          by_cases h1 : t < ab.2 <;> simp [mergeBest, h1]
      · rcases acc with _ | ab
        · simp only [bestStep, hfp, hrest, mergeBest]
          by_cases h2 : t ≤ qb.2
          · simp [mergeBest, h2, not_lt.mpr h2]
          · simp [mergeBest, h2, lt_of_not_le h2]
        · simp only [bestStep, hfp, hrest]
          by_cases h1 : t < ab.2 <;> by_cases h2 : t ≤ qb.2
          · simp [mergeBest, h1, h2, not_lt.mpr h2]
          · have h3 : qb.2 < t := lt_of_not_le h2
            have h4 : qb.2 < ab.2 := lt_trans h3 h1
            simp [mergeBest, h1, h2, h3, h4]
          · have h3 : ¬ qb.2 < ab.2 := not_lt.mpr (le_trans (le_of_not_lt h1) h2)
            simp [mergeBest, h1, h2, h3]
          · simp [mergeBest, h1, h2]

theorem bestLoop_eq_firstMin (f : ℕ × ℕ → Option ℚ) (ps : List (ℕ × ℕ)) :
    bestLoop f ps = firstMin f ps := by
  rw [bestLoop, foldl_bestStep]
  rfl

theorem firstMin_none (f : ℕ × ℕ → Option ℚ) :
    ∀ ps, firstMin f ps = none → ∀ q ∈ ps, f q = none
  | [], _, q, hq => absurd hq (List.not_mem_nil q)
  | q' :: ps, h, q, hq => by
    rw [firstMin] at h
    rcases hfq : f q' with _ | s' <;> rw [hfq] at h
    · rcases List.mem_cons.1 hq with rfl | hq'
      · exact hfq
      · exact firstMin_none f ps h q hq'
    · rcases hrest : firstMin f ps with _ | qb <;> rw [hrest] at h
      · exact absurd h (by simp)
      · obtain ⟨q₀, b₀⟩ := qb
        have h' : (if s' ≤ b₀ then some (q', s') else some (q₀, b₀)) =
            (none : Option ((ℕ × ℕ) × ℚ)) := h
        split_ifs at h'

theorem firstMin_payload (f : ℕ × ℕ → Option ℚ) :
    ∀ ps p t, firstMin f ps = some (p, t) → p ∈ ps ∧ f p = some t
  | [], p, t, h => by cases h
  | q' :: ps, p, t, h => by
    rw [firstMin] at h
    rcases hfq : f q' with _ | s' <;> rw [hfq] at h
    · have ih := firstMin_payload f ps p t h
      exact ⟨List.mem_cons_of_mem q' ih.1, ih.2⟩
    · rcases hrest : firstMin f ps with _ | qb <;> rw [hrest] at h
      · have h' : some (q', s') = some (p, t) := h
        rw [Option.some_inj, Prod.mk.injEq] at h'
        obtain ⟨rfl, rfl⟩ := h'
        exact ⟨List.mem_cons_self q' ps, hfq⟩
      · obtain ⟨q₀, b₀⟩ := qb
        have h' : (if s' ≤ b₀ then some (q', s') else some (q₀, b₀)) = some (p, t) := h
        split_ifs at h'
        · rw [Option.some_inj, Prod.mk.injEq] at h'
          obtain ⟨rfl, rfl⟩ := h'
          exact ⟨List.mem_cons_self q' ps, hfq⟩
        · rw [Option.some_inj, Prod.mk.injEq] at h'
          obtain ⟨rfl, rfl⟩ := h'
          have ih := firstMin_payload f ps q₀ b₀ hrest
          exact ⟨List.mem_cons_of_mem q' ih.1, ih.2⟩

theorem firstMin_min (f : ℕ × ℕ → Option ℚ) :
    ∀ ps p t, firstMin f ps = some (p, t) → ∀ q ∈ ps, ∀ s, f q = some s → t ≤ s
  | [], p, t, h => by cases h
  | q' :: ps, p, t, h => by
    intro q hq s hfs
    rw [firstMin] at h
    rcases hfq : f q' with _ | s' <;> rw [hfq] at h
    · rcases List.mem_cons.1 hq with rfl | hq'
      · rw [hfq] at hfs
        cases hfs
      · exact firstMin_min f ps p t h q hq' s hfs
    · rcases hrest : firstMin f ps with _ | qb <;> rw [hrest] at h
      · have h' : some (q', s') = some (p, t) := h
        rw [Option.some_inj, Prod.mk.injEq] at h'
        obtain ⟨rfl, rfl⟩ := h'
        rcases List.mem_cons.1 hq with rfl | hq'
        · rw [hfq] at hfs
          rw [Option.some_inj] at hfs
          exact le_of_eq hfs
        · rw [firstMin_none f ps hrest q hq'] at hfs
          cases hfs
      · obtain ⟨q₀, b₀⟩ := qb
        have h' : (if s' ≤ b₀ then some (q', s') else some (q₀, b₀)) = some (p, t) := h
        split_ifs at h' with hle
        · rw [Option.some_inj, Prod.mk.injEq] at h'
          obtain ⟨rfl, rfl⟩ := h'
          rcases List.mem_cons.1 hq with rfl | hq'
          · rw [hfq] at hfs
            rw [Option.some_inj] at hfs
            exact le_of_eq hfs
          · exact le_trans hle (firstMin_min f ps q₀ b₀ hrest q hq' s hfs)
        · rw [Option.some_inj, Prod.mk.injEq] at h'
          obtain ⟨rfl, rfl⟩ := h'
          rcases List.mem_cons.1 hq with rfl | hq'
          · rw [hfq] at hfs
            rw [Option.some_inj] at hfs
            rw [← hfs]
            exact le_of_lt (lt_of_not_le hle)
          · exact firstMin_min f ps q₀ b₀ hrest q hq' s hfs

theorem firstMin_first (f : ℕ × ℕ → Option ℚ) :
    ∀ ps p t, firstMin f ps = some (p, t) →
      ∃ l₁ l₂, ps = l₁ ++ p :: l₂ ∧ ∀ q ∈ l₁, ∀ s, f q = some s → t < s
  | [], p, t, h => by cases h
  | q' :: ps, p, t, h => by
    rw [firstMin] at h
    rcases hfq : f q' with _ | s' <;> rw [hfq] at h
    · obtain ⟨l₁, l₂, heq, hfst⟩ := firstMin_first f ps p t h
      refine ⟨q' :: l₁, l₂, by rw [heq]; rfl, ?_⟩
      intro q hq s hfs
      rcases List.mem_cons.1 hq with rfl | hq'
      · rw [hfq] at hfs
        cases hfs
      · exact hfst q hq' s hfs
    · rcases hrest : firstMin f ps with _ | qb <;> rw [hrest] at h
      · have h' : some (q', s') = some (p, t) := h
        rw [Option.some_inj, Prod.mk.injEq] at h'
        obtain ⟨rfl, rfl⟩ := h'
        exact ⟨[], ps, rfl, by simp⟩
      · obtain ⟨q₀, b₀⟩ := qb
        have h' : (if s' ≤ b₀ then some (q', s') else some (q₀, b₀)) = some (p, t) := h
        split_ifs at h' with hle
        · rw [Option.some_inj, Prod.mk.injEq] at h'
          obtain ⟨rfl, rfl⟩ := h'
          exact ⟨[], ps, rfl, by simp⟩
        · rw [Option.some_inj, Prod.mk.injEq] at h'
          obtain ⟨rfl, rfl⟩ := h'
          obtain ⟨l₁, l₂, heq, hfst⟩ := firstMin_first f ps q₀ b₀ hrest
          refine ⟨q' :: l₁, l₂, by rw [heq]; rfl, ?_⟩
          intro q hq s hfs
          rcases List.mem_cons.1 hq with rfl | hq'
          · rw [hfq] at hfs
            rw [Option.some_inj] at hfs
            rw [← hfs]
            exact lt_of_not_le hle
          · exact hfst q hq' s hfs

theorem firstMin_isSome (f : ℕ × ℕ → Option ℚ) :
    ∀ ps, ps ≠ [] → (∀ q ∈ ps, (f q).isSome) → (firstMin f ps).isSome
  | [], hne, _ => absurd rfl hne
  | q' :: ps, _, hdef => by
    rw [firstMin]
    rcases hfq : f q' with _ | s'
    · have h := hdef q' (List.mem_cons_self q' ps)
      rw [hfq] at h
      cases h
    · rcases firstMin f ps with _ | qb
      · rfl
      · show (if s' ≤ qb.2 then some (q', s') else some qb).isSome = true
        split_ifs <;> rfl

theorem mem_combinations2 (n : ℕ) (p : ℕ × ℕ) :
    p ∈ combinations2 n ↔ p.1 < p.2 ∧ p.2 < n := by
  obtain ⟨a, b⟩ := p
  simp only [combinations2, List.mem_flatMap, List.mem_map, List.mem_filter,
    List.mem_range, decide_eq_true_eq]
  constructor
  · rintro ⟨i, _, j, ⟨hj, hij⟩, hpq⟩
    rw [Prod.mk.injEq] at hpq
    obtain ⟨rfl, rfl⟩ := hpq
    exact ⟨hij, hj⟩
  · rintro ⟨hab, hbn⟩
    exact ⟨a, lt_trans hab hbn, b, ⟨hbn, hab⟩, rfl⟩

theorem nodup_combinations2 (n : ℕ) : (combinations2 n).Nodup := by
  rw [combinations2, List.nodup_flatMap]
  constructor
  · intro i _
    refine List.Nodup.map ?_ ((List.nodup_range n).filter _)
    intro j j' hjj
    rw [Prod.mk.injEq] at hjj
    exact hjj.2
  · refine List.Pairwise.imp_of_mem ?_ (List.pairwise_lt_range n)
    intro i i' _ _ hlt e he he'
    simp only [List.mem_map, List.mem_filter] at he he'
    obtain ⟨j, _, hji⟩ := he
    obtain ⟨j', _, hji'⟩ := he'
    rw [← hji, Prod.mk.injEq] at hji'
    exact absurd hji'.1 (Nat.ne_of_lt hlt).symm

theorem filter_self_eq_nil {α : Type} [DecidableEq α] :
    ∀ (l : List α) (b : α), b ∉ l → l.filter (fun x => decide (x = b)) = []
  | [], _, _ => rfl
  | a :: l, b, hb => by
    have hab : ¬ a = b := fun h => hb (h ▸ List.mem_cons_self a l)
    simp only [List.filter_cons, decide_eq_true_eq, hab, if_false]
    exact filter_self_eq_nil l b (fun h => hb (List.mem_cons_of_mem a h))

theorem length_filter_self_eq_one {α : Type} [DecidableEq α] :
    ∀ (l : List α), l.Nodup → ∀ b ∈ l, (l.filter (fun x => decide (x = b))).length = 1
  | [], _, b, hb => absurd hb (List.not_mem_nil b)
  | a :: l, hnd, b, hb => by
    rcases List.mem_cons.1 hb with rfl | hb'
    · have hnotmem : b ∉ l := (List.nodup_cons.1 hnd).1
      simp only [List.filter_cons, decide_eq_true_eq, if_pos rfl,
        filter_self_eq_nil l b hnotmem, List.length_cons, List.length_nil]
      simp
    · have hab : ¬ a = b := fun h => (List.nodup_cons.1 hnd).1 (h ▸ hb')
      simp only [List.filter_cons, decide_eq_true_eq, hab, if_false]
      exact length_filter_self_eq_one l (List.nodup_cons.1 hnd).2 b hb'

theorem nanSum_map_some {β : Type} (g : β → ℚ) :
    ∀ l : List β, nanSum (l.map (fun x => some (g x))) = some ((l.map g).sum)
  | [] => rfl
  | b :: l => by
    rw [List.map_cons, nanSum, nanSum_map_some g l, List.map_cons, List.sum_cons]
    rfl

theorem nanSum_of_none_mem : ∀ l : List (Option ℚ), none ∈ l → nanSum l = none
  | [], h => absurd h (List.not_mem_nil _)
  | o :: l, h => by
    rcases List.mem_cons.1 h with h1 | h1
    · rw [← h1, nanSum]
      rfl
    · rw [nanSum, nanSum_of_none_mem l h1]
      rcases o with _ | a <;> rfl

theorem getD_mem {α : Type} : ∀ (l : List α) (i : ℕ) (d : α), i < l.length → l.getD i d ∈ l
  | a :: l, 0, d, _ => List.mem_cons_self a l
  | a :: l, i + 1, d, h =>
    List.mem_cons_of_mem a (getD_mem l i d (by simpa using Nat.lt_of_succ_lt_succ h))

theorem combinations2_eq_nil {n : ℕ} (h : n < 2) : combinations2 n = [] := by
  refine List.eq_nil_iff_forall_not_mem.2 fun p hp => ?_
  have hm := (mem_combinations2 n p).1 hp
  omega

/-- The result assembled by `process_best_two_met_mast`: the winning pair
of column indices with its `best_total`, the `pair_total_rss` attribute
written on the two best-mast point features
(`best_total / len(turbines)`), and the `_all_pairs.csv` rows
`(pair, total_rss, avg_rss, is_best)` in iteration order. -/
structure PairOut where
  best : ℕ × ℕ
  bestTotal : ℚ
  pair_total_rss : Option ℚ
  allPairs : List ((ℕ × ℕ) × Option ℚ × Option ℚ × Bool)
deriving DecidableEq

/-- `avg_rss = total_rss / num_turbines if num_turbines > 0 else float('nan')`. -/
def avgOf (T : ℕ) (o : Option ℚ) : Option ℚ :=
  if 0 < T then o.map (fun s => s / (T : ℚ)) else none

/-- `process_best_two_met_mast`: scan all pairs; if no pair was ever
adopted (`best_pair` still `None` — fewer than two masts, or every total
NaN), the subsequent `mast_coords[best_pair[0]]` raises `TypeError`;
otherwise report the best pair, write `pair_total_rss = best_total /
len(turbines)` on both mast features, and emit the all-pairs CSV rows
with `is_best = ((i, j) == best_pair)`. -/
def process_best_two_met_mast (rows : List PRow) : Except PyExc PairOut :=
  match bestLoop (fun p => pairTotal rows p.1 p.2)
      (combinations2 (pairMasts rows).length) with
  | none => .error .typeError
  | some bp =>
    .ok
      { best := bp.1
        bestTotal := bp.2
        pair_total_rss :=
          if 0 < (pairTurbines rows).length
          then some (bp.2 / ((pairTurbines rows).length : ℚ)) else none
        allPairs :=
          (combinations2 (pairMasts rows).length).map (fun p =>
            (p, pairTotal rows p.1 p.2,
              avgOf (pairTurbines rows).length (pairTotal rows p.1 p.2),
              decide (p = bp.1))) }

/-- A one-row dataset: a single mast. -/
def oneMastRows : List PRow := [⟨0, 0, 0, 10, 0, 0, 1, some 5⟩]

/-- C8 counterexample: on a dataset with a single mast, pair-mode
selection fails with an unhandled `TypeError` (`best_pair` is still
`None` when indexed) — not with a `SelectionError`, a class the code
never defines or raises. -/
theorem C8_counterexample_one_mast :
    process_best_two_met_mast oneMastRows = .error .typeError ∧
    PyExc.typeError ≠ PyExc.selectionError :=
  ⟨rfl, by decide⟩

/-- C8 (amended): pair-mode selection on fewer than two distinct masts
fails — with an unhandled `TypeError` from subscripting `best_pair =
None`, since the code defines no `SelectionError`. -/
theorem C8_pair_mode_fails_below_two_masts (rows : List PRow)
    (h : (pairMasts rows).length < 2) :
    process_best_two_met_mast rows = .error .typeError := by
  rw [process_best_two_met_mast, combinations2_eq_nil h]
  rfl

/-- C8 witness: the single-mast dataset has fewer than two masts and
fails as the amended claim states. -/
theorem C8_witness : process_best_two_met_mast oneMastRows = .error .typeError :=
  C8_pair_mode_fails_below_two_masts oneMastRows (by decide)

theorem length_filter_map {α β : Type} (g : α → β) (p : β → Bool) :
    ∀ l : List α, ((l.map g).filter p).length = (l.filter (fun a => p (g a))).length
  | [] => rfl
  | a :: l => by
    simp only [List.map_cons, List.filter_cons]
    cases hpa : p (g a) <;> simp [hpa, length_filter_map g p l]

/-- C2: in pair mode, when every (turbine, mast) cell is measured (value
`c t m`), each candidate pair's `total_rss` is the sum over all turbines
of the per-turbine minimum against the two masts; the all-pairs list
enumerates `combinations2` in order with
`avg_rss = total_rss / turbine_count` and `is_best = (pair == best)`;
the reported best pair attains the globally smallest `total_rss`, is the
first pair achieving it in iteration order, and is the unique entry
flagged `is_best`. -/
theorem C2_pair_search (rows : List PRow) (c : ℚ × ℚ × ℚ → ℚ × ℚ × ℚ → ℚ)
    (hM : 2 ≤ (pairMasts rows).length)
    (hc : ∀ t ∈ pairTurbines rows, ∀ m ∈ pairMasts rows, cell rows t m = some (c t m)) :
    ∃ out : PairOut, process_best_two_met_mast rows = .ok out ∧
      (∀ p ∈ combinations2 (pairMasts rows).length,
        pairTotal rows p.1 p.2 =
          some (((pairTurbines rows).map
            (fun t => min (c t (mastAt rows p.1)) (c t (mastAt rows p.2)))).sum)) ∧
      out.allPairs.map (fun e => e.1) = combinations2 (pairMasts rows).length ∧
      (∀ e ∈ out.allPairs,
        e.2.1 = pairTotal rows e.1.1 e.1.2 ∧
        e.2.2.1 = (pairTotal rows e.1.1 e.1.2).map
          (fun s => s / ((pairTurbines rows).length : ℚ)) ∧
        (e.2.2.2 = true ↔ e.1 = out.best)) ∧
      out.best ∈ combinations2 (pairMasts rows).length ∧
      pairTotal rows out.best.1 out.best.2 = some out.bestTotal ∧
      (∀ p ∈ combinations2 (pairMasts rows).length, ∀ s,
        pairTotal rows p.1 p.2 = some s → out.bestTotal ≤ s) ∧
      (∃ l₁ l₂, combinations2 (pairMasts rows).length = l₁ ++ out.best :: l₂ ∧
        ∀ q ∈ l₁, ∀ s, pairTotal rows q.1 q.2 = some s → out.bestTotal < s) ∧
      (out.allPairs.filter (fun e => e.2.2.2)).length = 1 := by
  have htot : ∀ p ∈ combinations2 (pairMasts rows).length,
      pairTotal rows p.1 p.2 =
        some (((pairTurbines rows).map
          (fun t => min (c t (mastAt rows p.1)) (c t (mastAt rows p.2)))).sum) := by
    intro p hp
    have h1 := (mem_combinations2 _ p).1 hp
    have hmi : mastAt rows p.1 ∈ pairMasts rows := getD_mem _ _ _ (lt_trans h1.1 h1.2)
    have hmj : mastAt rows p.2 ∈ pairMasts rows := getD_mem _ _ _ h1.2
    have hmap : (pairTurbines rows).map
        (fun t => nanMin (cell rows t (mastAt rows p.1)) (cell rows t (mastAt rows p.2))) =
        (pairTurbines rows).map
        (fun t => some (min (c t (mastAt rows p.1)) (c t (mastAt rows p.2)))) := by
      refine List.map_congr_left ?_
      intro t ht
      rw [hc t ht _ hmi, hc t ht _ hmj]
      rfl
    rw [pairTotal, hmap, nanSum_map_some]
  have hrne : rows ≠ [] := by
    rintro rfl
    simp [pairMasts, dropDuplicates, dedupAux] at hM
  have hT : 0 < (pairTurbines rows).length := by
    obtain ⟨r, rs, hcons⟩ := List.exists_cons_of_ne_nil hrne
    subst hcons
    have hmem : tCoords r ∈ pairTurbines (r :: rs) := by
      rw [pairTurbines, dropDuplicates, mem_dedupAux]
      exact ⟨List.mem_map_of_mem _ (List.mem_cons_self r rs), List.not_mem_nil _⟩
    exact List.length_pos_of_mem hmem
  have h01 : ((0, 1) : ℕ × ℕ) ∈ combinations2 (pairMasts rows).length :=
    (mem_combinations2 _ _).2 ⟨Nat.zero_lt_one, by omega⟩
  have hcombne : combinations2 (pairMasts rows).length ≠ [] := List.ne_nil_of_mem h01
  have hdef : ∀ q ∈ combinations2 (pairMasts rows).length,
      ((fun p : ℕ × ℕ => pairTotal rows p.1 p.2) q).isSome := by
    intro q hq
    show (pairTotal rows q.1 q.2).isSome
    rw [htot q hq]
    rfl
  have hsome := firstMin_isSome (fun p : ℕ × ℕ => pairTotal rows p.1 p.2) _ hcombne hdef
  obtain ⟨⟨bp, bt⟩, hbl⟩ := Option.isSome_iff_exists.1 hsome
  have hpay := firstMin_payload _ _ bp bt hbl
  refine ⟨⟨bp, bt,
      if 0 < (pairTurbines rows).length
      then some (bt / ((pairTurbines rows).length : ℚ)) else none,
      (combinations2 (pairMasts rows).length).map (fun p =>
        (p, pairTotal rows p.1 p.2,
          avgOf (pairTurbines rows).length (pairTotal rows p.1 p.2),
          decide (p = bp)))⟩, ?_, htot, ?_, ?_, hpay.1, hpay.2, ?_, ?_, ?_⟩
  · rw [process_best_two_met_mast, bestLoop_eq_firstMin, hbl]
  · simp [Function.comp_def]
  · intro e he
    obtain ⟨p, hp, rfl⟩ := List.mem_map.1 he
    refine ⟨rfl, ?_, ?_⟩
    · show avgOf _ _ = _
      rw [avgOf, if_pos hT]
    · simp
  · exact firstMin_min _ _ bp bt hbl
  · exact firstMin_first _ _ bp bt hbl
  · show (((combinations2 (pairMasts rows).length).map (fun p =>
        (p, pairTotal rows p.1 p.2,
          avgOf (pairTurbines rows).length (pairTotal rows p.1 p.2),
          decide (p = bp)))).filter (fun e => e.2.2.2)).length = 1
    rw [length_filter_map]
    exact length_filter_self_eq_one _ (nodup_combinations2 _) bp hpay.1

/-- The six rows of the spec's worked pair-search example: two turbines,
three masts, uncertainty matrix `T1 = [5, 1, 9]`, `T2 = [2, 8, 1]`. -/
def pairRows : List PRow :=
  [⟨3, 4, 5, 10, 4, 5, 2, some 5⟩,
   ⟨3, 4, 5, 20, 4, 5, 2, some 1⟩,
   ⟨3, 4, 5, 30, 4, 5, 2, some 9⟩,
   ⟨6, 4, 5, 10, 4, 5, 2, some 2⟩,
   ⟨6, 4, 5, 20, 4, 5, 2, some 8⟩,
   ⟨6, 4, 5, 30, 4, 5, 2, some 1⟩]

/-- The cell-value function of `pairRows`. -/
def pairC (t m : ℚ × ℚ × ℚ) : ℚ :=
  if t = (3, 4, 5) then
    (if m = (10, 4, 5) then 5 else if m = (20, 4, 5) then 1 else 9)
  else
    (if m = (10, 4, 5) then 2 else if m = (20, 4, 5) then 8 else 1)

/-- C2 witness: on the worked example the selector succeeds. -/
theorem C2_witness : ∃ out : PairOut, process_best_two_met_mast pairRows = Except.ok out := by
  obtain ⟨out, h, -⟩ := C2_pair_search pairRows pairC (by decide) (by decide)
  exact ⟨out, h⟩

/-- The result of the selector on `pairRows`: best pair `(1, 2)` with
`total_rss = 2`, `pair_total_rss = 2 / 2 = 1`. -/
def pairOutEx : PairOut :=
  ⟨(1, 2), 2, some 1,
    [((0, 1), some 3, some (3 / 2), false),
     ((0, 2), some 6, some 3, false),
     ((1, 2), some 2, some 1, true)]⟩

theorem process_pairRows_eval :
    process_best_two_met_mast pairRows = Except.ok pairOutEx := by
  have hlen : (pairMasts pairRows).length = 3 := by decide
  have hm0 : mastAt pairRows 0 = (10, 4, 5) := by decide
  have hm1 : mastAt pairRows 1 = (20, 4, 5) := by decide
  have hm2 : mastAt pairRows 2 = (30, 4, 5) := by decide
  have hturb : pairTurbines pairRows = [(3, 4, 5), (6, 4, 5)] := by decide
  have c00 : cell pairRows (3, 4, 5) (10, 4, 5) = some 5 := by decide
  have c01 : cell pairRows (3, 4, 5) (20, 4, 5) = some 1 := by decide
  have c02 : cell pairRows (3, 4, 5) (30, 4, 5) = some 9 := by decide
  have c10 : cell pairRows (6, 4, 5) (10, 4, 5) = some 2 := by decide
  have c11 : cell pairRows (6, 4, 5) (20, 4, 5) = some 8 := by decide
  have c12 : cell pairRows (6, 4, 5) (30, 4, 5) = some 1 := by decide
  have t01 : pairTotal pairRows 0 1 = some 3 := by
    rw [pairTotal, hm0, hm1, hturb]
    norm_num [nanSum, nanAdd, nanMin, c00, c01, c10, c11, min_def]
  have t02 : pairTotal pairRows 0 2 = some 6 := by
    rw [pairTotal, hm0, hm2, hturb]
    norm_num [nanSum, nanAdd, nanMin, c00, c02, c10, c12, min_def]
  have t12 : pairTotal pairRows 1 2 = some 2 := by
    rw [pairTotal, hm1, hm2, hturb]
    norm_num [nanSum, nanAdd, nanMin, c01, c02, c11, c12, min_def]
  have hcomb : combinations2 3 = [(0, 1), (0, 2), (1, 2)] := by decide
  rw [process_best_two_met_mast, hlen, hcomb, bestLoop,
    List.foldl_cons, List.foldl_cons, List.foldl_cons, List.foldl_nil]
  simp only [bestStep, t01, t02, t12]
  norm_num [hturb, avgOf, t01, t02, t12, pairOutEx]

/-- C5 counterexample: on the worked example the best pair's `total_rss`
is 2 but the `pair_total_rss` attribute written on the two best-mast
features is `2 / 2 = 1` — the average, not the total. -/
theorem C5_counterexample :
    (process_best_two_met_mast pairRows).map PairOut.bestTotal = Except.ok 2 ∧
    (process_best_two_met_mast pairRows).map PairOut.pair_total_rss = Except.ok (some 1) ∧
    (some (1 : ℚ)) ≠ some 2 := by
  rw [process_pairRows_eval]
  exact ⟨rfl, rfl, by norm_num⟩

/-- C5 (amended): the `pair_total_rss` value attached to the two best-pair
mast records equals `total_rss / turbine_count`, i.e. `avg_rss`, not the
sum `total_rss`. -/
theorem C5_pair_total_rss_is_average (rows : List PRow) (out : PairOut)
    (h : process_best_two_met_mast rows = .ok out)
    (hT : 0 < (pairTurbines rows).length) :
    out.pair_total_rss = some (out.bestTotal / ((pairTurbines rows).length : ℚ)) := by
  rw [process_best_two_met_mast] at h
  rcases hbl : bestLoop (fun p => pairTotal rows p.1 p.2)
      (combinations2 (pairMasts rows).length) with _ | bp <;> rw [hbl] at h
  · have h' : (Except.error PyExc.typeError : Except PyExc PairOut) = Except.ok out := h
    cases h'
  · have h' : Except.ok
        ({ best := bp.1
           bestTotal := bp.2
           pair_total_rss :=
             if 0 < (pairTurbines rows).length
             then some (bp.2 / ((pairTurbines rows).length : ℚ)) else none
           allPairs :=
             (combinations2 (pairMasts rows).length).map (fun p =>
               (p, pairTotal rows p.1 p.2,
                 avgOf (pairTurbines rows).length (pairTotal rows p.1 p.2),
                 decide (p = bp.1))) } : PairOut) = Except.ok out := h
    rw [Except.ok.injEq] at h'
    rw [← h']
    show (if 0 < (pairTurbines rows).length
        then some (bp.2 / ((pairTurbines rows).length : ℚ)) else none) = _
    rw [if_pos hT]

/-- C5 witness: on the worked example, `pair_total_rss` equals
`bestTotal / 2`. -/
theorem C5_witness :
    pairOutEx.pair_total_rss = some (pairOutEx.bestTotal / ((pairTurbines pairRows).length : ℚ)) :=
  C5_pair_total_rss_is_average pairRows pairOutEx process_pairRows_eval (by decide)

/-- Two rows whose masts coincide in coordinates but differ in RIX. -/
def rixRows : List PRow :=
  [⟨1, 0, 0, 10, 0, 0, 1, some 5⟩,
   ⟨1, 0, 0, 10, 0, 0, 2, some 7⟩]

/-- C4 counterexample: two masts with identical coordinates and different
RIX occupy a single matrix column — the matrix key is the coordinate
triple, not the (x, y, z, rix) entity tuple, which would give two. -/
theorem C4_counterexample :
    (pairMasts rixRows).length = 1 ∧ (pairMastFullKeys rixRows).length = 2 := by
  decide

/-- C4 (amended): the dense matrix has one row per distinct turbine
coordinate triple and one column per distinct mast coordinate triple:
identity in the pair selector is `(x, y, z)` only, so entities differing
only in RIX share a row/column. -/
theorem C4_matrix_identity_is_coords (rows : List PRow) :
    (pairTurbines rows).Nodup ∧
    (∀ k, k ∈ pairTurbines rows ↔ k ∈ rows.map tCoords) ∧
    (pairMasts rows).Nodup ∧
    (∀ k, k ∈ pairMasts rows ↔ k ∈ rows.map mCoords) := by
  refine ⟨nodup_dedupAux _ _, ?_, nodup_dedupAux _ _, ?_⟩
  · intro k
    rw [pairTurbines, dropDuplicates, mem_dedupAux k]
    simp
  · intro k
    rw [pairMasts, dropDuplicates, mem_dedupAux k]
    simp

/-- A sparse dataset: turbine 2 was never measured against mast 3.
Cells: `T1 = [5, 4, 1]`, `T2 = [5, 4, NaN]`. -/
def sparseRows : List PRow :=
  [⟨3, 4, 5, 10, 4, 5, 2, some 5⟩,
   ⟨3, 4, 5, 20, 4, 5, 2, some 4⟩,
   ⟨3, 4, 5, 30, 4, 5, 2, some 1⟩,
   ⟨6, 4, 5, 10, 4, 5, 2, some 5⟩,
   ⟨6, 4, 5, 20, 4, 5, 2, some 4⟩]

/-- Modelled from the spec: the §9 exclusion policy the claim asserts —
"exclude undefined cells from both the per-turbine minimum and the sum":
a turbine missing one of the two cells contributes the other; a turbine
missing both contributes nothing. -/
def pairTotalExcluding (rows : List PRow) (i j : ℕ) : ℚ :=
  ((pairTurbines rows).filterMap (fun t =>
    match cell rows t (mastAt rows i), cell rows t (mastAt rows j) with
    | some a, some b => some (min a b)
    | some a, none => some a
    | none, some b => some b
    | none, none => none)).sum

/-- The result of the selector on `sparseRows`: only pair `(0, 1)` has a
real total; the pairs touching mast 3 are NaN and never adopted. -/
def sparseOutEx : PairOut :=
  ⟨(0, 1), 8, some 4,
    [((0, 1), some 8, some 4, true),
     ((0, 2), none, none, false),
     ((1, 2), none, none, false)]⟩

theorem process_sparseRows_eval :
    process_best_two_met_mast sparseRows = Except.ok sparseOutEx := by
  have hlen : (pairMasts sparseRows).length = 3 := by decide
  have hm0 : mastAt sparseRows 0 = (10, 4, 5) := by decide
  have hm1 : mastAt sparseRows 1 = (20, 4, 5) := by decide
  have hturb : pairTurbines sparseRows = [(3, 4, 5), (6, 4, 5)] := by decide
  have c00 : cell sparseRows (3, 4, 5) (10, 4, 5) = some 5 := by decide
  have c01 : cell sparseRows (3, 4, 5) (20, 4, 5) = some 4 := by decide
  have c10 : cell sparseRows (6, 4, 5) (10, 4, 5) = some 5 := by decide
  have c11 : cell sparseRows (6, 4, 5) (20, 4, 5) = some 4 := by decide
  have t01 : pairTotal sparseRows 0 1 = some 8 := by
    rw [pairTotal, hm0, hm1, hturb]
    norm_num [nanSum, nanAdd, nanMin, c00, c01, c10, c11, min_def]
  have t02 : pairTotal sparseRows 0 2 = none := by decide
  have t12 : pairTotal sparseRows 1 2 = none := by decide
  have hcomb : combinations2 3 = [(0, 1), (0, 2), (1, 2)] := by decide
  rw [process_best_two_met_mast, hlen, hcomb, bestLoop,
    List.foldl_cons, List.foldl_cons, List.foldl_cons, List.foldl_nil]
  simp only [bestStep, t01, t02, t12]
  norm_num [hturb, avgOf, t01, t02, t12, sparseOutEx]

/-- Rows for the asymmetric-missing case: turbine 2 was never measured
against mast 1, the lower-indexed column. Cells: `T1 = [5, 4]`,
`T2 = [NaN, 7]`. -/
def asymRows : List PRow :=
  [⟨3, 4, 5, 10, 4, 5, 2, some 5⟩,
   ⟨3, 4, 5, 20, 4, 5, 2, some 4⟩,
   ⟨6, 4, 5, 20, 4, 5, 2, some 7⟩]

theorem asym_total_eval : pairTotal asymRows 0 1 = some 11 := by
  have hm0 : mastAt asymRows 0 = (10, 4, 5) := by decide
  have hm1 : mastAt asymRows 1 = (20, 4, 5) := by decide
  have hturb : pairTurbines asymRows = [(3, 4, 5), (6, 4, 5)] := by decide
  have a00 : cell asymRows (3, 4, 5) (10, 4, 5) = some 5 := by decide
  have a01 : cell asymRows (3, 4, 5) (20, 4, 5) = some 4 := by decide
  have a10 : cell asymRows (6, 4, 5) (10, 4, 5) = none := by decide
  have a11 : cell asymRows (6, 4, 5) (20, 4, 5) = some 7 := by decide
  rw [pairTotal, hm0, hm1, hturb]
  norm_num [nanSum, nanAdd, nanMin, a00, a01, a10, a11, min_def]

/-- The selector's result on `asymRows`: `np.minimum`'s object loop
silently replaces the NaN at `(T2, M1)` by `T2`'s value against mast 2,
so the only pair `(0, 1)` gets the real total `min(5,4) + 7 = 11` and is
adopted as best although it is not fully measured. -/
def asymOutEx : PairOut :=
  ⟨(0, 1), 11, some (11 / 2), [((0, 1), some 11, some (11 / 2), true)]⟩

theorem process_asymRows_eval :
    process_best_two_met_mast asymRows = Except.ok asymOutEx := by
  have hlen : (pairMasts asymRows).length = 2 := by decide
  have hcomb : combinations2 2 = [(0, 1)] := by decide
  have hturb : pairTurbines asymRows = [(3, 4, 5), (6, 4, 5)] := by decide
  rw [process_best_two_met_mast, hlen, hcomb, bestLoop, List.foldl_cons, List.foldl_nil]
  simp only [bestStep, asym_total_eval]
  norm_num [hturb, avgOf, asym_total_eval, asymOutEx]

/-- C3 counterexample, both faces of the object-dtype `np.minimum`. On
`sparseRows` the cell (turbine 2, mast 3) is missing on the
higher-indexed side of each pair that contains mast 3: those totals
become NaN instead of the sum of the present cells, and the selection is
corrupted — under the exclusion policy the claim states, pair `(1,2)`
would win with total 5, but the code selects `(0,1)` with total 8. On
`asymRows` the missing cell sits on the lower-indexed side: it is
silently replaced by the other mast's value, and the pair containing it
wins with a real total instead of being treated as undefined. -/
theorem C3_counterexample :
    pairTotal sparseRows 1 2 = none ∧
    pairTotalExcluding sparseRows 1 2 = 5 ∧
    pairTotalExcluding sparseRows 0 1 = 8 ∧
    (5 : ℚ) < 8 ∧
    (process_best_two_met_mast sparseRows).map PairOut.best = Except.ok (0, 1) ∧
    cell asymRows (6, 4, 5) (10, 4, 5) = none ∧
    pairTotal asymRows 0 1 = some 11 ∧
    (process_best_two_met_mast asymRows).map PairOut.best = Except.ok (0, 1) := by
  have hm0 : mastAt sparseRows 0 = (10, 4, 5) := by decide
  have hm1 : mastAt sparseRows 1 = (20, 4, 5) := by decide
  have hm2 : mastAt sparseRows 2 = (30, 4, 5) := by decide
  have hturb : pairTurbines sparseRows = [(3, 4, 5), (6, 4, 5)] := by decide
  have c00 : cell sparseRows (3, 4, 5) (10, 4, 5) = some 5 := by decide
  have c01 : cell sparseRows (3, 4, 5) (20, 4, 5) = some 4 := by decide
  have c02 : cell sparseRows (3, 4, 5) (30, 4, 5) = some 1 := by decide
  have c10 : cell sparseRows (6, 4, 5) (10, 4, 5) = some 5 := by decide
  have c11 : cell sparseRows (6, 4, 5) (20, 4, 5) = some 4 := by decide
  have c12 : cell sparseRows (6, 4, 5) (30, 4, 5) = none := by decide
  refine ⟨by decide, ?_, ?_, by norm_num, ?_, by decide, asym_total_eval, ?_⟩
  · rw [pairTotalExcluding, hm1, hm2, hturb]
    simp only [List.filterMap_cons, List.filterMap_nil, c01, c02, c11, c12]
    norm_num [min_def]
  · rw [pairTotalExcluding, hm0, hm1, hturb]
    simp only [List.filterMap_cons, List.filterMap_nil, c00, c01, c10, c11]
    norm_num [min_def]
  · rw [process_sparseRows_eval]
    rfl
  · rw [process_asymRows_eval]
    rfl

/-- C3 (amended): a missing (turbine, mast) cell does participate,
asymmetrically. On the object-dtype matrix `np.minimum` is
`in1 if in1 <= in2 else in2`, so a NaN against the lower-indexed mast is
silently replaced by the value against the higher-indexed mast, while a
turbine whose cell against the higher-indexed mast is missing makes the
pair's `total_rss` NaN; a NaN total is never adopted by the strict `<`
update, so any returned best pair has a real (non-NaN) total — but a
pair with cells missing only on the lower-indexed side can still win. -/
theorem C3_missing_cells_propagate :
    (∀ x : Option ℚ, nanMin x none = none) ∧
    (∀ v : Option ℚ, nanMin none v = v) ∧
    (∀ (rows : List PRow) (i j : ℕ), ∀ t ∈ pairTurbines rows,
      cell rows t (mastAt rows j) = none → pairTotal rows i j = none) ∧
    (∀ (rows : List PRow) (out : PairOut), process_best_two_met_mast rows = .ok out →
      pairTotal rows out.best.1 out.best.2 = some out.bestTotal) := by
  refine ⟨fun x => by rcases x <;> rfl, fun v => rfl, ?_, ?_⟩
  · intro rows i j t ht hj
    have hnan : nanMin (cell rows t (mastAt rows i)) (cell rows t (mastAt rows j)) = none := by
      rw [hj]
      rcases cell rows t (mastAt rows i) <;> rfl
    rw [pairTotal]
    refine nanSum_of_none_mem _ ?_
    rw [← hnan]
    exact List.mem_map_of_mem _ ht
  · intro rows out h
    rw [process_best_two_met_mast] at h
    rcases hbl : bestLoop (fun p => pairTotal rows p.1 p.2)
        (combinations2 (pairMasts rows).length) with _ | bp <;> rw [hbl] at h
    · have h' : (Except.error PyExc.typeError : Except PyExc PairOut) = Except.ok out := h
      cases h'
    · rw [bestLoop_eq_firstMin] at hbl
      obtain ⟨q₀, b₀⟩ := bp
      have hpay := firstMin_payload _ _ q₀ b₀ hbl
      have h' : Except.ok
          ({ best := q₀
             bestTotal := b₀
             pair_total_rss :=
               if 0 < (pairTurbines rows).length
               then some (b₀ / ((pairTurbines rows).length : ℚ)) else none
             allPairs :=
               (combinations2 (pairMasts rows).length).map (fun p =>
                 (p, pairTotal rows p.1 p.2,
                   avgOf (pairTurbines rows).length (pairTotal rows p.1 p.2),
                   decide (p = q₀))) } : PairOut) = Except.ok out := h
      rw [Except.ok.injEq] at h'
      rw [← h']
      exact hpay.2

/-! ## Record parsing: the reading loop of `aggregate_process_trix_file`

The source reads lines until EOF or a line starting with `Assumptions:`
or `*`, feeds the collected text to `pd.read_csv(sep='\t')` (which fails
with `EmptyDataError` on empty text, and otherwise takes the first line
as the header), strips the column names, and then subscripts the
dataframe with the twelve required columns (a missing one raises
`KeyError`). Strings are handled through their character lists, and the
tab-splitting of a line is modelled explicitly. -/

/-- Split a character list at tab characters (the `sep='\t'` decoding of
one line); `acc` holds the current field reversed. -/
def splitTabAux (acc : List Char) : List Char → List (List Char)
  | [] => [acc.reverse]
  | c :: cs => if c = '\t' then acc.reverse :: splitTabAux [] cs else splitTabAux (c :: acc) cs

/-- `str.strip()` on a header name: drop surrounding whitespace. -/
def trimChars (l : List Char) : List Char :=
  ((l.dropWhile Char.isWhitespace).reverse.dropWhile Char.isWhitespace).reverse

/-- A line at which the reading loop stops:
`line.startswith(('Assumptions:', '*'))`. -/
def stopLine (s : String) : Bool :=
  "Assumptions:".data.isPrefixOf s.data || "*".data.isPrefixOf s.data

/-- The lines passed to the tabular decoder: everything before the first
stop line (or all lines when none occurs). -/
def usableLines (ls : List String) : List String :=
  ls.takeWhile (fun s => !stopLine s)

/-- The column names decoded from the header line, stripped:
`df.columns.str.strip()`. -/
def headerFields (h : String) : List String :=
  (splitTabAux [] h.data).map (fun f => String.mk (trimChars f))

/-- The twelve columns the aggregation subscripts: the turbine tuple, the
reference-point tuple, and the four numeric uncertainty columns. -/
def requiredCols : List String :=
  ["WTG X [m]", "WTG Y [m]", "WTG Z [m]", "WTG RIX [%]",
   "Reference Point X [m]", "Reference Point Y [m]", "Reference Point Z [m]",
   "Reference RIX [%]",
   "Horiz. Uc increase due to horiz. distance [%]", "Horizontal Distance [m]",
   "Horiz. Uc increase due to vert. distance [%]",
   "Vertical uncertainty increase [%]"]

/-- The reading-and-decoding stage of `aggregate_process_trix_file`:
no usable line at all means `pd.read_csv` gets empty text
(`EmptyDataError`); otherwise the first usable line is the header and
the rest are the data rows, and a missing required column raises
`KeyError` at the first dataframe subscript. Returns the stripped header
and the raw data-row lines. -/
def trix_parse (ls : List String) : Except PyExc (List String × List String) :=
  match usableLines ls with
  | [] => .error .emptyDataError
  | h :: rest =>
    if requiredCols.all (fun cname => (headerFields h).contains cname)
    then .ok (headerFields h, rest)
    else .error .keyError

/-- A header line holding exactly the twelve required columns. -/
def hdrLine : String :=
  "WTG X [m]\tWTG Y [m]\tWTG Z [m]\tWTG RIX [%]\tReference Point X [m]\tReference Point Y [m]\tReference Point Z [m]\tReference RIX [%]\tHoriz. Uc increase due to horiz. distance [%]\tHorizontal Distance [m]\tHoriz. Uc increase due to vert. distance [%]\tVertical uncertainty increase [%]"

/-- C9 counterexample: a file holding a complete header and zero data
rows before the `Assumptions:` marker parses successfully (an empty
dataset; the claimed failure does not happen), and the failures the code
does produce are pandas `EmptyDataError` (no lines at all) and
`KeyError` (missing column) — no `ParseError` class exists. -/
theorem C9_counterexample :
    trix_parse [hdrLine, "Assumptions: flat terrain"] = .ok (requiredCols, []) ∧
    trix_parse [] = .error .emptyDataError ∧
    PyExc.emptyDataError ≠ PyExc.parseError ∧
    PyExc.keyError ≠ PyExc.parseError := by
  refine ⟨?_, rfl, by decide, by decide⟩
  rfl

/-- C9 (amended): reading stops at the first line starting with
`Assumptions:` or `*` (or EOF); if no line at all precedes the marker the
parse fails with pandas `EmptyDataError`; otherwise the first line is
the header, whose names are trimmed, and the parse fails with `KeyError`
iff a required column is absent — a header with zero data rows parses
successfully into an empty dataset. No `ParseError` exists in the code. -/
theorem C9_parse_boundaries (ls : List String) :
    (usableLines ls = [] → trix_parse ls = .error .emptyDataError) ∧
    (∀ h rest, usableLines ls = h :: rest →
      (requiredCols.all (fun cname => (headerFields h).contains cname) = true →
        trix_parse ls = .ok (headerFields h, rest)) ∧
      (requiredCols.all (fun cname => (headerFields h).contains cname) = false →
        trix_parse ls = .error .keyError)) := by
  constructor
  · intro hnil
    rw [trix_parse, hnil]
  · intro h rest hcons
    constructor
    · intro hall
      rw [trix_parse, hcons]
      simp only [hall, if_true]
    · intro hnone
      rw [trix_parse, hcons]
      simp only [hnone, Bool.false_eq_true, if_false]

/-! ## Single-mast selector: `process_best_single_met_mast`

Reads the grouped mast CSV back; if the `adj_RSS_uncertainty` column
exists it takes `data.loc[data['adj_RSS_uncertainty'].idxmin()]`,
otherwise it falls back to the legacy column
`'RSS of uncertainty increases [%]'`; the reported uncertainty attribute
is the chosen row's value in whichever column was used. `idxmin` returns
the first index attaining the minimum and raises `ValueError` on an
empty column; subscripting a dataframe without the fallback column
raises `KeyError`. -/

/-- One row of the grouped mast table as the single-mast selector reads
it: reference-point coordinates and RIX, and the row's values in the two
candidate uncertainty columns (each meaningful only when the
corresponding column exists in the file). -/
structure SRow where
  refX : ℚ
  refY : ℚ
  refZ : ℚ
  refRIX : ℚ
  adj : ℚ
  legacy : ℚ
deriving DecidableEq

/-- The grouped mast CSV: which of the two uncertainty columns exist,
and the rows. -/
structure MastTable where
  hasAdjCol : Bool
  hasLegacyCol : Bool
  rows : List SRow
deriving DecidableEq

/-- `data.loc[series.idxmin()]`: the first row attaining the minimum of
`f`, or `none` on an empty table (pandas raises `ValueError`). -/
def idxminBy (f : SRow → ℚ) : List SRow → Option SRow
  | [] => none
  | a :: l =>
    match idxminBy f l with
    | none => some a
    | some b => if f a ≤ f b then some a else some b

/-- `process_best_single_met_mast`: prefer `adj_RSS_uncertainty`, fall
back to the legacy column; the result carries the selected row, the name
of the column used (`rss_col`), and the reported uncertainty value. -/
def process_best_single_met_mast (t : MastTable) : Except PyExc (SRow × String × ℚ) :=
  if t.hasAdjCol then
    match idxminBy SRow.adj t.rows with
    | none => .error .valueError
    | some r => .ok (r, "adj_RSS_uncertainty", r.adj)
  else if t.hasLegacyCol then
    match idxminBy SRow.legacy t.rows with
    | none => .error .valueError
    | some r => .ok (r, "RSS of uncertainty increases [%]", r.legacy)
  else .error .keyError

theorem idxminBy_spec (f : SRow → ℚ) :
    ∀ l r, idxminBy f l = some r →
      r ∈ l ∧ (∀ q ∈ l, f r ≤ f q) ∧
      ∃ l₁ l₂, l = l₁ ++ r :: l₂ ∧ ∀ q ∈ l₁, f r < f q
  | [], r, h => by cases h
  | a :: l, r, h => by
    rw [idxminBy] at h
    rcases hrest : idxminBy f l with _ | b <;> rw [hrest] at h
    · have hnil : l = [] := by
        cases l with
        | nil => rfl
        | cons x xs =>
          exfalso
          rw [idxminBy] at hrest
          rcases hxs : idxminBy f xs with _ | y <;> rw [hxs] at hrest
          · have hrest' : (some x : Option SRow) = none := hrest
            cases hrest'
          · have hrest' : (if f x ≤ f y then some x else some y) = none := hrest
            split_ifs at hrest'
      have h' : some a = some r := h
      rw [Option.some_inj] at h'
      subst h'
      subst hnil
      exact ⟨List.mem_cons_self a [], by simp, [], [], rfl, by simp⟩
    · have h' : (if f a ≤ f b then some a else some b) = some r := h
      split_ifs at h' with hle
      · rw [Option.some_inj] at h'
        subst h'
        obtain ⟨hbmem, hbmin, -⟩ := idxminBy_spec f l b hrest
        refine ⟨List.mem_cons_self a l, ?_, [], l, rfl, by simp⟩
        intro q hq
        rcases List.mem_cons.1 hq with rfl | hq'
        · exact le_refl _
        · exact le_trans hle (hbmin q hq')
      · rw [Option.some_inj] at h'
        subst h'
        obtain ⟨hbmem, hbmin, l₁, l₂, heq, hstrict⟩ := idxminBy_spec f l b hrest
        refine ⟨List.mem_cons_of_mem a hbmem, ?_, a :: l₁, l₂, by rw [heq]; rfl, ?_⟩
        · intro q hq
          rcases List.mem_cons.1 hq with rfl | hq'
          · exact le_of_lt (lt_of_not_le hle)
          · exact hbmin q hq'
        · intro q hq
          rcases List.mem_cons.1 hq with rfl | hq'
          · exact lt_of_not_le hle
          · exact hstrict q hq'

theorem idxminBy_isSome (f : SRow → ℚ) :
    ∀ l, l ≠ [] → (idxminBy f l).isSome
  | [], hne => absurd rfl hne
  | a :: l, _ => by
    rw [idxminBy]
    rcases idxminBy f l with _ | b
    · rfl
    · show (if f a ≤ f b then some a else some b).isSome = true
      split_ifs <;> rfl

/-- C10: when the grouped mast table lacks the `adj_RSS_uncertainty`
column (but has the legacy `'RSS of uncertainty increases [%]'` column
and at least one row), single-mast selection does not fail: it returns
the first row attaining the minimum of the legacy column and reports
that row's legacy value as the uncertainty attribute. -/
theorem C10_single_mode_legacy_fallback (t : MastTable)
    (h1 : t.hasAdjCol = false) (h2 : t.hasLegacyCol = true) (h3 : t.rows ≠ []) :
    ∃ r, process_best_single_met_mast t =
        .ok (r, "RSS of uncertainty increases [%]", r.legacy) ∧
      r ∈ t.rows ∧ (∀ q ∈ t.rows, r.legacy ≤ q.legacy) ∧
      ∃ l₁ l₂, t.rows = l₁ ++ r :: l₂ ∧ ∀ q ∈ l₁, r.legacy < q.legacy := by
  obtain ⟨r, hr⟩ := Option.isSome_iff_exists.1 (idxminBy_isSome SRow.legacy t.rows h3)
  obtain ⟨hmem, hmin, hfirst⟩ := idxminBy_spec SRow.legacy t.rows r hr
  refine ⟨r, ?_, hmem, hmin, hfirst⟩
  rw [process_best_single_met_mast, h1, h2]
  simp only [Bool.false_eq_true, if_false, if_true, hr]

/-- A legacy-format grouped table: no `adj_RSS_uncertainty` column; the
legacy minimum 4 is first attained by the second row. -/
def legacyTable : MastTable :=
  ⟨false, true,
    [⟨3, 4, 5, 2, 7, 9⟩, ⟨6, 4, 5, 2, 7, 4⟩, ⟨8, 4, 5, 2, 7, 4⟩]⟩

/-- C10 witness: on the legacy-format table selection succeeds with the
first legacy-minimal row. -/
theorem C10_witness :
    ∃ r, process_best_single_met_mast legacyTable =
        .ok (r, "RSS of uncertainty increases [%]", r.legacy) ∧
      r ∈ legacyTable.rows ∧ (∀ q ∈ legacyTable.rows, r.legacy ≤ q.legacy) ∧
      ∃ l₁ l₂, legacyTable.rows = l₁ ++ r :: l₂ ∧ ∀ q ∈ l₁, r.legacy < q.legacy :=
  C10_single_mode_legacy_fallback legacyTable rfl rfl (by decide)

end OMP
